import Mathlib

/-!
Verification of the mc4go shared-memory counter exchange.

This file shallowly embeds the core of the repository:
- layout constants and id/status word packing (internal/layout, constants file),
- the counters metadata/values sections and the encoder operations
  AddCounter / FreeCounter (internal/layout/encoder.go),
- the decoder operations ForEachCounter / GetCounterValue / GetCounterLabel
  (internal/layout/decoder.go),
- the statics section at the byte level with SetStatics / ForEachStatic /
  GetStaticValue, including capacity checks and StaticsLength sizing,
- the writer facade's id issuance and close, the reader facade's version
  check and close (writer.go, reader source),
- the store-kind trace of SetStatics together with the store kinds actually
  implemented by the offheap Buffer (internal/offheap/buffer.go).

Machine integers are modelled as Nat/Int with explicit reductions modulo
powers of two where the Go code wraps.  The encoder and decoder are embedded
sequentially: every claim about them either presupposes a single writer and
no concurrent mutation (so atomic loads, CAS and the decoder's
read-recheck of the id-status word are equal to their plain sequential
counterparts), or concerns only data that a single thread computes.
-/

/-! ## Layout constants (internal/layout constants file) -/

def sizeOfInt32 : Nat := 4

def sizeOfInt64 : Nat := 8

def sizeOfCacheLine : Nat := 64

/-- Go: metadataLabelMaxLength = sizeOfCacheLine*6 - sizeOfInt32 = 380. -/
def metadataLabelMaxLength : Nat := sizeOfCacheLine * 6 - sizeOfInt32

def metadataCounterIDStatusOffset : Nat := 0

def metadataLabelLengthOffset : Nat := sizeOfCacheLine * 2

def metadataLabelOffset : Nat := metadataLabelLengthOffset + sizeOfInt32

/-- Go: metadataRecordLength = metadataLabelOffset + metadataLabelMaxLength = 512. -/
def metadataRecordLength : Nat := metadataLabelOffset + metadataLabelMaxLength

/-- Go: valuesCounterLength = sizeOfCacheLine * 2 = 128. -/
def valuesCounterLength : Nat := sizeOfCacheLine * 2

def counterStatusNotUsed : Nat := 0

def counterStatusAllocationInProgress : Nat := 1

def counterStatusAllocated : Nat := 2

def counterStatusFreed : Nat := 3

/-- Go: func makeIDStatus(id int64, status uint8) int64
    { return int64(uint64(id)<<8 | uint64(status)) }.
The id-status word is modelled by its unsigned 64-bit pattern.
uint64(id) is id mod 2^64; the shift keeps the low 64 bits; since the
shifted value has zero low byte and every status passed by the code is
below 256, the bitwise or is addition. -/
def makeIDStatus (id : Int) (status : Nat) : Nat :=
  ((id.emod (2 ^ 64)).toNat * 2 ^ 8 + status) % 2 ^ 64

/-- Go: func extractStatus(idStatus int64) uint8 { return uint8(idStatus & 0xff) }. -/
def extractStatus (w : Nat) : Nat := w % 2 ^ 8

/-- Go: func extractID(idStatus int64) int64 { return int64(uint64(idStatus) >> 8) }.
For a word pattern w, uint64(w) >> 8 = (w / 2^8) % 2^56, and the result is
a nonnegative int64. -/
def extractID (w : Nat) : Int := Int.ofNat (w / 2 ^ 8 % 2 ^ 56)

/-- Go: func Align(v int, alignment int) int
    { return (v + alignment - 1) &^ (alignment - 1) }.
For a power-of-two alignment and nonnegative v (the only uses), clearing
the low bits of v + alignment - 1 is subtracting its remainder. -/
def Align (v alignment : Nat) : Nat :=
  (v + alignment - 1) - (v + alignment - 1) % alignment

/-! ## Counters metadata and values sections

Metadata slot i (at byte offset i * metadataRecordLength) and values slot i
(at byte offset i * valuesCounterLength) are paired by position; the model
keeps the metadata fields of a slot and its paired values-section int64
side by side in one structure and the two sections as one list indexed by
slot.  The 380-byte label area is a byte function; the decoder reads the
first labelLen bytes of it. -/

structure CounterSlot where
  /-- Unsigned pattern of the int64 id-status word at slot offset 0. -/
  word : Nat
  /-- The int32 label length field at slot offset metadataLabelLengthOffset. -/
  labelLen : Nat
  /-- The label byte area at slot offset metadataLabelOffset. -/
  labelField : Nat → Nat
  /-- The int64 in the paired values-section slot. -/
  value : Int

instance : Inhabited CounterSlot := ⟨⟨0, 0, fun _ => 0, 0⟩⟩

/-- A freshly mapped file is zero-filled, so every slot starts as all zeroes
(status NotUsed). -/
def emptySlot : CounterSlot := ⟨0, 0, fun _ => 0, 0⟩

/-- The label bytes a decoder reads from a slot: labelLen bytes of the label
area (decoder.go: GetString(metadataLabelOffset, labelLength)). -/
def readLabel (s : CounterSlot) : List Nat :=
  (List.range s.labelLen).map s.labelField

/-- Go, encoder.go AddCounter: the body executed after the CAS to
AllocationInProgress succeeds: truncate the label to metadataLabelMaxLength,
plain-write the label length and the first labelLength label bytes, plain
write the initial value into the paired values slot, then store the
Allocated id-status word.  In the sequential model the whole body is one
state update. -/
def allocateSlot (id initialValue : Int) (label : List Nat) (s : CounterSlot) :
    CounterSlot :=
  let labelLength := min label.length metadataLabelMaxLength
  { word := makeIDStatus id counterStatusAllocated
    labelLen := labelLength
    labelField := fun i => if i < labelLength then label.getD i 0 else s.labelField i
    value := initialValue }

/-- Go, encoder.go AddCounter: scan slots from offset 0; on a slot whose
status is NotUsed or Freed, CAS to AllocationInProgress (which always
succeeds with no concurrent writer), fill the slot, mark it Allocated and
return the value offset; on any other status advance by one record
(values offset advances by valuesCounterLength).  none models the
"there is no free space to add new counter" error. -/
def addCounterLoop (id initialValue : Int) (label : List Nat) :
    List CounterSlot → Option (List CounterSlot × Nat)
  | [] => none
  | s :: rest =>
    let status := extractStatus s.word
    if status = counterStatusNotUsed ∨ status = counterStatusFreed then
      some (allocateSlot id initialValue label s :: rest, 0)
    else
      (addCounterLoop id initialValue label rest).map
        (fun p => (s :: p.1, p.2 + valuesCounterLength))

/-- Go, encoder.go FreeCounter: scan slots; on the first slot whose word's
id equals the target: if Allocated, CAS to the Freed word (the CAS result
is deliberately ignored; sequentially it succeeds) and return true, else
return false; if no slot matches, return false.  none models the false
return (in which case the section is unchanged). -/
def freeCounterLoop (id : Int) : List CounterSlot → Option (List CounterSlot)
  | [] => none
  | s :: rest =>
    if extractID s.word = id then
      if extractStatus s.word = counterStatusAllocated then
        some ({ s with word := makeIDStatus id counterStatusFreed } :: rest)
      else
        none
    else
      (freeCounterLoop id rest).map (s :: ·)

/-- A slot a scanning allocator may take: status NotUsed or Freed. -/
def isFreeSlot (s : CounterSlot) : Prop :=
  extractStatus s.word = counterStatusNotUsed ∨ extractStatus s.word = counterStatusFreed

instance (s : CounterSlot) : Decidable (isFreeSlot s) := by
  unfold isFreeSlot; infer_instance

/-! ### Characterization of the allocation scan (shared helper) -/

theorem addCounterLoop_none (id initialValue : Int) (label : List Nat) :
    ∀ st : List CounterSlot, (∀ s ∈ st, ¬ isFreeSlot s) →
      addCounterLoop id initialValue label st = none := by
  intro st
  induction st with
  | nil => intro _; rfl
  | cons s rest ih =>
    intro h
    have hs : ¬ isFreeSlot s := h s (by simp)
    simp only [addCounterLoop, isFreeSlot] at hs ⊢
    rw [if_neg hs, ih (fun x hx => h x (by simp [hx]))]
    rfl

theorem addCounterLoop_spec (id initialValue : Int) (label : List Nat) :
    ∀ st : List CounterSlot, (∃ s ∈ st, isFreeSlot s) →
      ∃ i st',
        addCounterLoop id initialValue label st = some (st', valuesCounterLength * i) ∧
        i < st.length ∧
        isFreeSlot (st.getD i default) ∧
        (∀ j, j < i → ¬ isFreeSlot (st.getD j default)) ∧
        st' = st.set i (allocateSlot id initialValue label (st.getD i default)) := by
  intro st
  induction st with
  | nil => rintro ⟨s, hs, _⟩; simp at hs
  | cons s rest ih =>
    intro h
    by_cases hs : isFreeSlot s
    · refine ⟨0, allocateSlot id initialValue label s :: rest, ?_, by simp, by simpa, ?_, by simp⟩
      · simp only [addCounterLoop, isFreeSlot] at hs ⊢
        rw [if_pos hs]
        simp
      · intro j hj; omega
    · have hrest : ∃ x ∈ rest, isFreeSlot x := by
        rcases h with ⟨x, hx, hfree⟩
        rcases List.mem_cons.mp hx with h1 | h2
        · exact absurd (h1 ▸ hfree) hs
        · exact ⟨x, h2, hfree⟩
      rcases ih hrest with ⟨i, st', heq, hlt, hfree, hmin, hset⟩
      refine ⟨i + 1, s :: st', ?_, by simpa using hlt, by simpa using hfree, ?_, by simp [hset]⟩
      · simp only [addCounterLoop, isFreeSlot] at hs ⊢
        rw [if_neg hs, heq]
        simp [Option.map]
        ring_nf
      · intro j hj
        cases j with
        | zero => simpa using hs
        | succ j' => simpa using hmin j' (by omega)

/-! ## Decoder: counter iteration and lookups (internal/layout/decoder.go)

The decoder is embedded against a fixed section state (no concurrent
writer), so the acquire re-load of the id-status word after reading the
payload always equals the first load: the recheck branch is the identity
and the retry loop of GetCounterValue / GetCounterLabel never runs. -/

inductive DecoderErr where
  | notFound
  | notAllocated
deriving DecidableEq, Repr

/-- Go, decoder.go ForEachCounter: walk metadata slots from offset 0;
NotUsed breaks the loop; on Allocated read id, label and the paired value,
recheck the word (equal here) and invoke the consumer, returning if it
yields false; any other status is skipped.  The result is the list of
consumer invocations in order. -/
def forEachCounterLoop (consumer : Int → Int → List Nat → Bool) :
    List CounterSlot → List (Int × Int × List Nat)
  | [] => []
  | s :: rest =>
    let status := extractStatus s.word
    if status = counterStatusNotUsed then []
    else if status = counterStatusAllocated then
      let e := (extractID s.word, s.value, readLabel s)
      if consumer e.1 e.2.1 e.2.2 then e :: forEachCounterLoop consumer rest
      else [e]
    else forEachCounterLoop consumer rest

/-- Go, decoder.go GetCounterValue: scan from offset 0; break at the first
NotUsed slot (falling through to the "not found" error); on the first slot
whose word's id equals the target, return its paired value if Allocated
(the recheck of the word succeeds here) or the "isn't allocated" error
otherwise; a scan past the section end is also "not found". -/
def getCounterValue (counterID : Int) : List CounterSlot → Except DecoderErr Int
  | [] => .error .notFound
  | s :: rest =>
    let status := extractStatus s.word
    if status = counterStatusNotUsed then .error .notFound
    else if extractID s.word = counterID then
      if status = counterStatusAllocated then .ok s.value
      else .error .notAllocated
    else getCounterValue counterID rest

/-- Go, decoder.go GetCounterLabel: identical scan to GetCounterValue,
reading the label length and label bytes instead of the paired value. -/
def getCounterLabel (counterID : Int) : List CounterSlot → Except DecoderErr (List Nat)
  | [] => .error .notFound
  | s :: rest =>
    let status := extractStatus s.word
    if status = counterStatusNotUsed then .error .notFound
    else if extractID s.word = counterID then
      if status = counterStatusAllocated then .ok (readLabel s)
      else .error .notAllocated
    else getCounterLabel counterID rest

/-- Truncation of an invocation trace at the first element the consumer
rejects: elements are kept while the consumer returns true, and the first
rejected element is kept as the final invocation. -/
def stopAtFalse (consumer : Int → Int → List Nat → Bool) :
    List (Int × Int × List Nat) → List (Int × Int × List Nat)
  | [] => []
  | e :: es => if consumer e.1 e.2.1 e.2.2 then e :: stopAtFalse consumer es else [e]

/-- The slots strictly before the first NotUsed slot: the live region a
reader scans. -/
def liveRegion (st : List CounterSlot) : List CounterSlot :=
  st.takeWhile (fun s => extractStatus s.word ≠ counterStatusNotUsed)

/-- The (id, value, label) triples of the Allocated slots of the live
region, in slot order. -/
def allocatedTriples (st : List CounterSlot) : List (Int × Int × List Nat) :=
  ((liveRegion st).filter
    (fun s => extractStatus s.word = counterStatusAllocated)).map
    (fun s => (extractID s.word, s.value, readLabel s))

/-! ### Claim C1: AddCounter takes the lowest free slot and fills it -/

theorem range_map_getD_eq_take (d : Nat) :
    ∀ (l : List Nat) (m : Nat), m ≤ l.length →
      (List.range m).map (fun i => l.getD i d) = l.take m := by
  intro l
  induction l with
  | nil => intro m hm; rw [Nat.le_zero.mp hm]; simp
  | cons a t ih =>
    intro m hm
    cases m with
    | zero => simp
    | succ k =>
      rw [List.range_succ_eq_map]
      simp only [List.map_cons, List.map_map, List.take_succ_cons, List.getD_cons_zero]
      congr 1
      have := ih k (by simpa using hm)
      rw [← this]
      apply List.map_congr_left
      intro i _
      simp [Function.comp, List.getD_cons_succ]

theorem readLabel_allocateSlot (id initialValue : Int) (label : List Nat) (s : CounterSlot) :
    readLabel (allocateSlot id initialValue label s) = label.take metadataLabelMaxLength := by
  unfold readLabel allocateSlot
  simp only
  have h1 : ∀ i ∈ List.range (min label.length metadataLabelMaxLength),
      (if i < min label.length metadataLabelMaxLength then label.getD i 0
       else s.labelField i) = label.getD i 0 := by
    intro i hi
    rw [if_pos (List.mem_range.mp hi)]
  rw [List.map_congr_left h1, range_map_getD_eq_take 0 label _ (Nat.min_le_left _ _),
    List.take_eq_take]
  omega

/-- C1: with at least one NotUsed or Freed slot present, AddCounter succeeds,
takes the lowest-index such slot i, writes the Allocated id-status word, the
truncated label and its length, and the initial value into the paired values
slot, leaves every other slot unchanged, and returns value offset
i * valuesCounterLength = i * 128. -/
theorem addCounter_takes_lowest_free_slot (id initialValue : Int) (label : List Nat)
    (st : List CounterSlot) (h : ∃ s ∈ st, isFreeSlot s) :
    ∃ i st',
      addCounterLoop id initialValue label st = some (st', valuesCounterLength * i) ∧
      i < st.length ∧
      isFreeSlot (st.getD i default) ∧
      (∀ j, j < i → ¬ isFreeSlot (st.getD j default)) ∧
      (st'.getD i default).word = makeIDStatus id counterStatusAllocated ∧
      (st'.getD i default).labelLen = min label.length metadataLabelMaxLength ∧
      readLabel (st'.getD i default) = label.take metadataLabelMaxLength ∧
      (st'.getD i default).value = initialValue ∧
      (∀ j, j ≠ i → st'.getD j default = st.getD j default) ∧
      st'.length = st.length := by
  rcases addCounterLoop_spec id initialValue label st h with ⟨i, st', heq, hlt, hfree, hmin, hset⟩
  subst hset
  refine ⟨i, _, heq, hlt, hfree, hmin, ?_, ?_, ?_, ?_, ?_, by simp⟩
  · rw [List.getD_eq_getElem?_getD, List.getElem?_set_self (by simpa using hlt)]
    simp [allocateSlot]
  · rw [List.getD_eq_getElem?_getD, List.getElem?_set_self (by simpa using hlt)]
    simp [allocateSlot]
  · rw [List.getD_eq_getElem?_getD, List.getElem?_set_self (by simpa using hlt)]
    simp only [Option.getD_some]
    exact readLabel_allocateSlot id initialValue label _
  · rw [List.getD_eq_getElem?_getD, List.getElem?_set_self (by simpa using hlt)]
    simp [allocateSlot]
  · intro j hj
    rw [List.getD_eq_getElem?_getD, List.getElem?_set_ne (fun hij => hj hij.symm)]
    rw [List.getD_eq_getElem?_getD]

/-- Closed witness for addCounter_takes_lowest_free_slot: a two-slot section
whose first slot is Allocated and second slot is Freed. -/
def witnessSlotAlloc : CounterSlot :=
  ⟨makeIDStatus 9 counterStatusAllocated, 1, fun _ => 97, 11⟩

def witnessSlotFreed : CounterSlot :=
  ⟨makeIDStatus 4 counterStatusFreed, 0, fun _ => 0, 0⟩

theorem addCounter_takes_lowest_free_slot_witness :
    (∃ s ∈ [witnessSlotAlloc, witnessSlotFreed], isFreeSlot s) ∧
    (∃ i st',
      addCounterLoop 7 42 [104, 105] [witnessSlotAlloc, witnessSlotFreed] =
        some (st', valuesCounterLength * i) ∧
      i < [witnessSlotAlloc, witnessSlotFreed].length ∧
      isFreeSlot ([witnessSlotAlloc, witnessSlotFreed].getD i default) ∧
      (∀ j, j < i → ¬ isFreeSlot ([witnessSlotAlloc, witnessSlotFreed].getD j default)) ∧
      (st'.getD i default).word = makeIDStatus 7 counterStatusAllocated ∧
      (st'.getD i default).labelLen = min ([104, 105] : List Nat).length metadataLabelMaxLength ∧
      readLabel (st'.getD i default) = ([104, 105] : List Nat).take metadataLabelMaxLength ∧
      (st'.getD i default).value = 42 ∧
      (∀ j, j ≠ i → st'.getD j default = [witnessSlotAlloc, witnessSlotFreed].getD j default) ∧
      st'.length = [witnessSlotAlloc, witnessSlotFreed].length) :=
  ⟨⟨witnessSlotFreed, by simp, by right; decide⟩,
   addCounter_takes_lowest_free_slot 7 42 [104, 105] [witnessSlotAlloc, witnessSlotFreed]
     ⟨witnessSlotFreed, by simp, by right; decide⟩⟩

/-! ### Claim C2: ForEachCounter emits the Allocated live region in order -/

/-- C2: with no concurrent writer (the sequential model, in which the
before/after reads of each id-status word are equal), ForEachCounter invokes
the sink exactly on the Allocated slots strictly before the first NotUsed
slot, in ascending slot order, passing id, paired value and stored label;
AllocationInProgress and Freed slots are skipped, iteration stops at the
first NotUsed slot, and a sink returning false halts iteration immediately:
the invocation trace is the Allocated-triple list truncated at the first
rejected element. -/
theorem forEachCounter_emits_allocated_live_region
    (consumer : Int → Int → List Nat → Bool) (st : List CounterSlot) :
    forEachCounterLoop consumer st = stopAtFalse consumer (allocatedTriples st) := by
  induction st with
  | nil => rfl
  | cons s rest ih =>
    by_cases h0 : extractStatus s.word = counterStatusNotUsed
    · have h1 : liveRegion (s :: rest) = [] := by
        simp [liveRegion, List.takeWhile_cons, h0]
      have h3 : allocatedTriples (s :: rest) = [] := by
        simp [allocatedTriples, h1]
      rw [h3]
      simp [forEachCounterLoop, h0, stopAtFalse]
    · have h1 : liveRegion (s :: rest) = s :: liveRegion rest := by
        simp [liveRegion, List.takeWhile_cons, h0]
      by_cases h2 : extractStatus s.word = counterStatusAllocated
      · have h3 : allocatedTriples (s :: rest)
            = (extractID s.word, s.value, readLabel s) :: allocatedTriples rest := by
          simp [allocatedTriples, h1, List.filter_cons, h2]
        rw [h3]
        by_cases hc : consumer (extractID s.word) s.value (readLabel s)
        · simp [forEachCounterLoop, h0, h2, hc, stopAtFalse, ih]
          decide
        · simp [forEachCounterLoop, h0, h2, hc, stopAtFalse]
          decide
      · have h3 : allocatedTriples (s :: rest) = allocatedTriples rest := by
          simp [allocatedTriples, h1, List.filter_cons, h2]
        rw [h3]
        simp [forEachCounterLoop, h0, h2, ih]

/-! ### Claim C3: targeted lookups -/

/-- C3 (amended): GetCounterValue and GetCounterLabel scan slots from index
0 and stop at the first NotUsed slot; the first slot before that horizon
whose word stores id decides the result: its paired value (resp. stored
label) if it is Allocated, the NotAllocated error otherwise; the NotFound
error if no slot before the horizon stores id. -/
theorem getCounter_decided_by_first_match (counterID : Int) (st : List CounterSlot) :
    match (liveRegion st).find? (fun s => extractID s.word = counterID) with
    | some s =>
      if extractStatus s.word = counterStatusAllocated then
        getCounterValue counterID st = .ok s.value ∧
        getCounterLabel counterID st = .ok (readLabel s)
      else
        getCounterValue counterID st = .error .notAllocated ∧
        getCounterLabel counterID st = .error .notAllocated
    | none =>
      getCounterValue counterID st = .error .notFound ∧
      getCounterLabel counterID st = .error .notFound := by
  induction st with
  | nil => exact ⟨rfl, rfl⟩
  | cons s rest ih =>
    by_cases h0 : extractStatus s.word = counterStatusNotUsed
    · have h1 : liveRegion (s :: rest) = [] := by
        simp [liveRegion, List.takeWhile_cons, h0]
      rw [h1, List.find?_nil]
      exact ⟨by simp [getCounterValue, h0], by simp [getCounterLabel, h0]⟩
    · have h1 : liveRegion (s :: rest) = s :: liveRegion rest := by
        simp [liveRegion, List.takeWhile_cons, h0]
      rw [h1]
      by_cases hid : extractID s.word = counterID
      · have hf : (s :: liveRegion rest).find?
            (fun s => extractID s.word = counterID) = some s := by
          simp [List.find?_cons, hid]
        rw [hf]
        dsimp only
        by_cases h2 : extractStatus s.word = counterStatusAllocated
        · rw [if_pos h2]
          exact ⟨by simp [getCounterValue, h0, hid, h2]; decide,
                 by simp [getCounterLabel, h0, hid, h2]; decide⟩
        · rw [if_neg h2]
          exact ⟨by simp [getCounterValue, h0, hid, h2],
                 by simp [getCounterLabel, h0, hid, h2]⟩
      · have hf : (s :: liveRegion rest).find?
            (fun s => extractID s.word = counterID) =
            (liveRegion rest).find? (fun s => extractID s.word = counterID) := by
          simp [List.find?_cons, hid]
        rw [hf]
        have hval : getCounterValue counterID (s :: rest) =
            getCounterValue counterID rest := by
          simp [getCounterValue, h0, hid]
        have hlab : getCounterLabel counterID (s :: rest) =
            getCounterLabel counterID rest := by
          simp [getCounterLabel, h0, hid]
        rw [hval, hlab]
        exact ih

/-- A section state with two slots storing the same id 5: a Freed slot at
index 0 and an Allocated slot at index 1 (value 42).  The encoder API takes
the id as a caller-supplied argument, so such states are legal metadata
section states. -/
def dupFreedSlot : CounterSlot := ⟨makeIDStatus 5 counterStatusFreed, 0, fun _ => 0, 0⟩

def dupAllocSlot : CounterSlot := ⟨makeIDStatus 5 counterStatusAllocated, 0, fun _ => 0, 42⟩

def dupIdSection : List CounterSlot := [dupFreedSlot, dupAllocSlot]

/-- C3 counterexample: in dupIdSection, slot 1 lies before the first NotUsed
slot and stores id 5 with status Allocated and paired value 42, yet
GetCounterValue(5) does not return 42: the scan is decided by the first slot
storing id 5 (index 0, Freed), so both lookups return the NotAllocated
error. -/
theorem getCounter_ignores_later_allocated_match :
    extractStatus ((dupIdSection.getD 1 default).word) = counterStatusAllocated ∧
    extractID ((dupIdSection.getD 1 default).word) = 5 ∧
    (dupIdSection.getD 1 default).value = 42 ∧
    (∀ j, j < dupIdSection.length →
      extractStatus ((dupIdSection.getD j default).word) ≠ counterStatusNotUsed) ∧
    getCounterValue 5 dupIdSection ≠ Except.ok 42 ∧
    getCounterValue 5 dupIdSection = Except.error DecoderErr.notAllocated ∧
    getCounterLabel 5 dupIdSection = Except.error DecoderErr.notAllocated := by
  refine ⟨by decide, by decide, by decide, by decide, ?_, rfl, rfl⟩
  intro h
  rw [show getCounterValue 5 dupIdSection = Except.error DecoderErr.notAllocated from rfl] at h
  exact Except.noConfusion h

/-! ### Claim C4: reachable metadata section invariants -/

inductive EncoderOp where
  | add (id initialValue : Int) (label : List Nat)
  | free (id : Int)

/-- The state transformation of one encoder call: AddCounter (which leaves
the section unchanged when it fails with the out-of-slots error) or
FreeCounter (which leaves the section unchanged when it returns false). -/
def applyEncoderOp (op : EncoderOp) (st : List CounterSlot) : List CounterSlot :=
  match op with
  | .add id initialValue label =>
    match addCounterLoop id initialValue label st with
    | some (st', _) => st'
    | none => st
  | .free id =>
    match freeCounterLoop id st with
    | some st' => st'
    | none => st

/-- Metadata section states reachable from the all-NotUsed initial state
(a freshly mapped file is zero-filled) by AddCounter and FreeCounter
calls. -/
inductive ReachableSection (n : Nat) : List CounterSlot → Prop where
  | init : ReachableSection n (List.replicate n emptySlot)
  | step (op : EncoderOp) {st : List CounterSlot} :
      ReachableSection n st → ReachableSection n (applyEncoderOp op st)

theorem addCounterLoop_eq_some (id initialValue : Int) (label : List Nat) :
    ∀ (st st' : List CounterSlot) (vOff : Nat),
      addCounterLoop id initialValue label st = some (st', vOff) →
      ∃ i, vOff = valuesCounterLength * i ∧ i < st.length ∧
        isFreeSlot (st.getD i default) ∧
        (∀ j, j < i → ¬ isFreeSlot (st.getD j default)) ∧
        st' = st.set i (allocateSlot id initialValue label (st.getD i default)) := by
  intro st
  induction st with
  | nil => intro st' vOff h; exact Option.noConfusion h
  | cons s rest ih =>
    intro st' vOff h
    by_cases hs : isFreeSlot s
    · simp only [addCounterLoop, isFreeSlot] at h hs
      rw [if_pos hs] at h
      obtain ⟨h1, h2⟩ := Prod.mk.injEq .. ▸ Option.some.injEq .. ▸ h
      refine ⟨0, by simp [← h2], by simp, by simpa [isFreeSlot] using hs, by omega, by simp [← h1]⟩
    · simp only [addCounterLoop, isFreeSlot] at h hs
      rw [if_neg hs] at h
      cases hrec : addCounterLoop id initialValue label rest with
      | none => rw [hrec] at h; exact Option.noConfusion h
      | some p =>
        rw [hrec] at h
        simp only [Option.map_some', Option.some.injEq, Prod.mk.injEq] at h
        rcases ih p.1 p.2 (by rw [hrec]) with ⟨i, hoff, hlt, hfree, hmin, hset⟩
        refine ⟨i + 1, ?_, by simpa using hlt, by simpa using hfree, ?_, ?_⟩
        · rw [← h.2, hoff]; ring
        · intro j hj
          cases j with
          | zero => simpa [isFreeSlot] using hs
          | succ j' => simpa using hmin j' (by omega)
        · rw [← h.1, hset]
          simp

theorem freeCounterLoop_eq_some (id : Int) :
    ∀ (st st' : List CounterSlot),
      freeCounterLoop id st = some st' →
      ∃ i, i < st.length ∧
        extractID (st.getD i default).word = id ∧
        extractStatus (st.getD i default).word = counterStatusAllocated ∧
        st' = st.set i
          { st.getD i default with word := makeIDStatus id counterStatusFreed } := by
  intro st
  induction st with
  | nil => intro st' h; exact Option.noConfusion h
  | cons s rest ih =>
    intro st' h
    by_cases hid : extractID s.word = id
    · simp only [freeCounterLoop] at h
      rw [if_pos hid] at h
      by_cases hst : extractStatus s.word = counterStatusAllocated
      · rw [if_pos hst] at h
        refine ⟨0, by simp, by simpa using hid, by simpa using hst, ?_⟩
        simp only [Option.some.injEq] at h
        simp [← h]
      · rw [if_neg hst] at h
        exact absurd h (by simp)
    · simp only [freeCounterLoop] at h
      rw [if_neg hid] at h
      cases hrec : freeCounterLoop id rest with
      | none => rw [hrec] at h; exact Option.noConfusion h
      | some p =>
        rw [hrec] at h
        simp only [Option.map_some', Option.some.injEq] at h
        rcases ih p (by rw [hrec]) with ⟨i, hlt, hid', hst', hset⟩
        refine ⟨i + 1, by simpa using hlt, by simpa using hid', by simpa using hst', ?_⟩
        rw [← h, hset]
        simp

theorem getD_set_self (l : List CounterSlot) (i : Nat) (x : CounterSlot)
    (h : i < l.length) : (l.set i x).getD i default = x := by
  rw [List.getD_eq_getElem?_getD, List.getElem?_set_self (by simpa using h)]
  simp

theorem getD_set_of_ne (l : List CounterSlot) (i j : Nat) (x : CounterSlot)
    (h : j ≠ i) : (l.set i x).getD j default = l.getD j default := by
  rw [List.getD_eq_getElem?_getD, List.getElem?_set_ne (fun e => h e.symm),
    ← List.getD_eq_getElem?_getD]

theorem extractStatus_makeIDStatus (id : Int) (status : Nat) (h : status < 2 ^ 8) :
    extractStatus (makeIDStatus id status) = status := by
  unfold extractStatus makeIDStatus
  omega

/-- One encoder step never turns a slot's status back into NotUsed: the only
words an encoder call stores carry status Allocated or Freed. -/
theorem applyEncoderOp_preserves_not_NotUsed (op : EncoderOp) (st : List CounterSlot)
    (i : Nat) (h : extractStatus (st.getD i default).word ≠ counterStatusNotUsed) :
    extractStatus ((applyEncoderOp op st).getD i default).word ≠ counterStatusNotUsed := by
  cases op with
  | add id initialValue label =>
    cases hres : addCounterLoop id initialValue label st with
    | none => simpa [applyEncoderOp, hres] using h
    | some p =>
      rcases addCounterLoop_eq_some id initialValue label st p.1 p.2 (by rw [hres]) with
        ⟨k, _, hk, _, _, hset⟩
      have hst' : applyEncoderOp (.add id initialValue label) st = p.1 := by
        simp [applyEncoderOp, hres]
      rw [hst', hset]
      by_cases hik : i = k
      · subst hik
        rw [getD_set_self st i _ hk]
        have : extractStatus (allocateSlot id initialValue label (st.getD i default)).word =
            counterStatusAllocated := by
          simp only [allocateSlot]
          exact extractStatus_makeIDStatus id counterStatusAllocated (by decide)
        rw [this]
        decide
      · rw [getD_set_of_ne st k i _ hik]
        exact h
  | free id =>
    cases hres : freeCounterLoop id st with
    | none => simpa [applyEncoderOp, hres] using h
    | some st1 =>
      rcases freeCounterLoop_eq_some id st st1 hres with ⟨k, hk, _, _, hset⟩
      have hst' : applyEncoderOp (.free id) st = st1 := by
        simp [applyEncoderOp, hres]
      rw [hst', hset]
      by_cases hik : i = k
      · subst hik
        rw [getD_set_self st i _ hk]
        have : extractStatus (makeIDStatus id counterStatusFreed) = counterStatusFreed :=
          extractStatus_makeIDStatus id counterStatusFreed (by decide)
        simp only [this]
        decide
      · rw [getD_set_of_ne st k i _ hik]
        exact h

/-- C4: in every metadata section state reachable from the all-NotUsed
initial state by AddCounter and FreeCounter calls: every slot's status is
one of NotUsed, AllocationInProgress, Allocated, Freed; no encoder step
takes a slot whose status differs from NotUsed back to NotUsed; and the
NotUsed slots form a suffix: a NotUsed slot at index i forces every index
j at or after i to be NotUsed too. -/
theorem reachable_section_invariants (n : Nat) (st : List CounterSlot)
    (h : ReachableSection n st) :
    (∀ i, i < st.length →
      extractStatus (st.getD i default).word = counterStatusNotUsed ∨
      extractStatus (st.getD i default).word = counterStatusAllocationInProgress ∨
      extractStatus (st.getD i default).word = counterStatusAllocated ∨
      extractStatus (st.getD i default).word = counterStatusFreed) ∧
    (∀ op i, extractStatus (st.getD i default).word ≠ counterStatusNotUsed →
      extractStatus ((applyEncoderOp op st).getD i default).word ≠ counterStatusNotUsed) ∧
    (∀ i j, i ≤ j → j < st.length →
      extractStatus (st.getD i default).word = counterStatusNotUsed →
      extractStatus (st.getD j default).word = counterStatusNotUsed) := by
  induction h with
  | init =>
    have hrep : ∀ j : Nat, ((List.replicate n emptySlot).getD j default) = emptySlot := by
      intro j
      rw [List.getD_eq_getElem?_getD, List.getElem?_replicate]
      by_cases hj : j < n
      · rw [if_pos hj]; rfl
      · rw [if_neg hj]; rfl
    refine ⟨?_, ?_, ?_⟩
    · intro i _; left; rw [hrep i]; rfl
    · intro op i hi
      exact applyEncoderOp_preserves_not_NotUsed op _ i hi
    · intro i j _ _ _; rw [hrep j]; rfl
  | step op hst ih =>
    rename_i st0
    obtain ⟨ih1, _, ih3⟩ := ih
    refine ⟨?_, ?_, ?_⟩
    · -- every status stays in the four-value set
      cases op with
      | add id initialValue label =>
        cases hres : addCounterLoop id initialValue label st0 with
        | none => simpa [applyEncoderOp, hres] using ih1
        | some p =>
          rcases addCounterLoop_eq_some id initialValue label st0 p.1 p.2 (by rw [hres]) with
            ⟨k, _, hk, _, _, hset⟩
          have hst' : applyEncoderOp (.add id initialValue label) st0 = p.1 := by
            simp [applyEncoderOp, hres]
          rw [hst', hset]
          intro i hi
          rw [List.length_set] at hi
          by_cases hik : i = k
          · subst hik
            rw [getD_set_self st0 i _ hk]
            right; right; left
            simp only [allocateSlot]
            exact extractStatus_makeIDStatus id counterStatusAllocated (by decide)
          · rw [getD_set_of_ne st0 k i _ hik]
            exact ih1 i hi
      | free id =>
        cases hres : freeCounterLoop id st0 with
        | none => simpa [applyEncoderOp, hres] using ih1
        | some st1 =>
          rcases freeCounterLoop_eq_some id st0 st1 hres with ⟨k, hk, _, _, hset⟩
          have hst' : applyEncoderOp (.free id) st0 = st1 := by
            simp [applyEncoderOp, hres]
          rw [hst', hset]
          intro i hi
          rw [List.length_set] at hi
          by_cases hik : i = k
          · subst hik
            rw [getD_set_self st0 i _ hk]
            right; right; right
            exact extractStatus_makeIDStatus id counterStatusFreed (by decide)
          · rw [getD_set_of_ne st0 k i _ hik]
            exact ih1 i hi
    · intro op' i hi
      exact applyEncoderOp_preserves_not_NotUsed op' _ i hi
    · -- the NotUsed slots remain a suffix
      cases op with
      | add id initialValue label =>
        cases hres : addCounterLoop id initialValue label st0 with
        | none => simpa [applyEncoderOp, hres] using ih3
        | some p =>
          rcases addCounterLoop_eq_some id initialValue label st0 p.1 p.2 (by rw [hres]) with
            ⟨k, _, hk, _, hmin, hset⟩
          have hst' : applyEncoderOp (.add id initialValue label) st0 = p.1 := by
            simp [applyEncoderOp, hres]
          rw [hst', hset]
          intro i j hij hj h0
          rw [List.length_set] at hj
          by_cases hik : i = k
          · exfalso
            rw [hik, getD_set_self st0 k _ hk] at h0
            have : extractStatus (allocateSlot id initialValue label
                (st0.getD k default)).word = counterStatusAllocated := by
              simp only [allocateSlot]
              exact extractStatus_makeIDStatus id counterStatusAllocated (by decide)
            rw [this] at h0
            exact absurd h0 (by decide)
          · rw [getD_set_of_ne st0 k i _ hik] at h0
            have hki : k ≤ i := by
              by_contra hki
              exact hmin i (by omega) (Or.inl h0)
            by_cases hjk : j = k
            · omega
            · rw [getD_set_of_ne st0 k j _ hjk]
              exact ih3 i j hij hj h0
      | free id =>
        cases hres : freeCounterLoop id st0 with
        | none => simpa [applyEncoderOp, hres] using ih3
        | some st1 =>
          rcases freeCounterLoop_eq_some id st0 st1 hres with ⟨k, hk, _, hkst, hset⟩
          have hst' : applyEncoderOp (.free id) st0 = st1 := by
            simp [applyEncoderOp, hres]
          rw [hst', hset]
          intro i j hij hj h0
          rw [List.length_set] at hj
          by_cases hik : i = k
          · exfalso
            rw [hik, getD_set_self st0 k _ hk] at h0
            rw [extractStatus_makeIDStatus id counterStatusFreed (by decide)] at h0
            exact absurd h0 (by decide)
          · rw [getD_set_of_ne st0 k i _ hik] at h0
            by_cases hjk : j = k
            · exfalso
              have := ih3 i k (by omega) (by omega) h0
              rw [this] at hkst
              exact absurd hkst (by decide)
            · rw [getD_set_of_ne st0 k j _ hjk]
              exact ih3 i j hij hj h0

/-- A concrete reachable state: two fresh slots after one AddCounter call. -/
def c4WitnessState : List CounterSlot :=
  applyEncoderOp (.add 0 5 [97]) (List.replicate 2 emptySlot)

theorem reachable_section_invariants_witness :
    ReachableSection 2 c4WitnessState ∧
    ((∀ i, i < c4WitnessState.length →
      extractStatus (c4WitnessState.getD i default).word = counterStatusNotUsed ∨
      extractStatus (c4WitnessState.getD i default).word = counterStatusAllocationInProgress ∨
      extractStatus (c4WitnessState.getD i default).word = counterStatusAllocated ∨
      extractStatus (c4WitnessState.getD i default).word = counterStatusFreed) ∧
    (∀ op i, extractStatus (c4WitnessState.getD i default).word ≠ counterStatusNotUsed →
      extractStatus ((applyEncoderOp op c4WitnessState).getD i default).word ≠
        counterStatusNotUsed) ∧
    (∀ i j, i ≤ j → j < c4WitnessState.length →
      extractStatus (c4WitnessState.getD i default).word = counterStatusNotUsed →
      extractStatus (c4WitnessState.getD j default).word = counterStatusNotUsed)) :=
  ⟨ReachableSection.step (EncoderOp.add 0 5 [97]) ReachableSection.init,
   reachable_section_invariants 2 c4WitnessState
     (ReachableSection.step (EncoderOp.add 0 5 [97]) ReachableSection.init)⟩

/-! ## Writer facade: id issuance and close (writer.go) -/

/-- Go, writer.go: the Writer's idSequence field; NewWriterForFile sets it
to -1. -/
structure WriterIdState where
  idSequence : Int

def newWriterIdState : WriterIdState := ⟨-1⟩

/-- Go, writer.go AddCounterWithInitialValue:
id := atomic.AddInt64(&w.idSequence, 1), i.e. the new sequence value. -/
def nextCounterId (w : WriterIdState) : Int × WriterIdState :=
  let id := w.idSequence + 1
  (id, ⟨id⟩)

/-- The ids issued by the first n AddCounter / AddCounterWithInitialValue
calls of one writer, in call order (an id is drawn from the sequence even
when the encoder then fails, so this is exactly the issued sequence). -/
def issuedIds : Nat → WriterIdState → List Int
  | 0, _ => []
  | n + 1, w =>
    let p := nextCounterId w
    p.1 :: issuedIds n p.2

theorem issuedIds_from (k : Int) : ∀ n : Nat,
    issuedIds n ⟨k⟩ = (List.range n).map (fun j : Nat => k + 1 + (j : Int)) := by
  intro n
  induction n generalizing k with
  | zero => rfl
  | succ m ih =>
    rw [List.range_succ_eq_map]
    simp only [issuedIds, nextCounterId, List.map_cons, List.map_map]
    congr 1
    · simp
    · rw [ih (k + 1)]
      apply List.map_congr_left
      intro i _
      simp only [Function.comp]
      push_cast
      ring

/-- C6: the ids issued to counters by a single writer are 0, 1, 2, ...:
the n-th call (counting from 1) issues id n-1, so ids are strictly
increasing from 0 with no duplicates and no gaps. -/
theorem writer_ids_are_consecutive_from_zero (n : Nat) :
    issuedIds n newWriterIdState = (List.range n).map (fun j : Nat => (j : Int)) := by
  rw [show newWriterIdState = ⟨-1⟩ from rfl, issuedIds_from (-1) n]
  apply List.map_congr_left
  intro i _
  omega

/-! ## Reader facade: version check and close (reader source, part of the
repository's mc4go package) -/

inductive ReaderErr where
  | uninitialized
  | versionMismatch
deriving DecidableEq, Repr

/-- Go: const CountersVersion = 1 (internal/layout constants file). -/
def CountersVersion : Int := 1

/-- Go, NewReader: version := decoder.Version(); version == 0 is the
"counters haven't been initialized yet" error; version != CountersVersion
is the "unexpected version of the counters file" error; otherwise the
reader is constructed. -/
def newReaderCheck (version : Int) : Except ReaderErr Unit :=
  if version = 0 then .error .uninitialized
  else if version ≠ CountersVersion then .error .versionMismatch
  else .ok ()

/-- C7: reader construction fails with Uninitialized exactly when the
header's version field is 0, fails with VersionMismatch exactly when the
version is nonzero and differs from CountersVersion = 1, and succeeds
exactly when the version equals 1. -/
theorem newReader_version_check (version : Int) :
    (newReaderCheck version = .error .uninitialized ↔ version = 0) ∧
    (newReaderCheck version = .error .versionMismatch ↔ version ≠ 0 ∧ version ≠ 1) ∧
    (newReaderCheck version = .ok () ↔ version = 1) := by
  unfold newReaderCheck CountersVersion
  by_cases h0 : version = 0
  · subst h0
    refine ⟨by simp, by simp, by simp⟩
  · by_cases h1 : version = 1
    · subst h1
      refine ⟨by simp, by simp, by simp⟩
    · rw [if_neg h0, if_pos h1]
      refine ⟨by simp [h0], by simp [h0, h1], by simp [h1]⟩

/-! ## Facade close semantics (writer.go Close, reader source Close)

The facades own the mapping; the model instruments each facade state with
the number of mmap.Unmap invocations performed on its buffer. -/

/-- Go, writer.go: the Writer's closed flag, plus an unmap-call counter. -/
structure WriterCloseState where
  closed : Int
  unmapCalls : Nat

/-- Go, writer.go Close: if !CompareAndSwapInt32(&w.closed, 0, 1) return;
return mmap.Unmap(w.buffer). -/
def writerClose (w : WriterCloseState) : WriterCloseState :=
  if w.closed = 0 then ⟨1, w.unmapCalls + 1⟩ else w

/-- Go, reader source: the Reader has no closed flag; only the unmap-call
counter is observable state for Close. -/
structure ReaderCloseState where
  unmapCalls : Nat

/-- Go, reader source Close: func (r *Reader) Close() (err error)
{ return mmap.Unmap(r.buffer) } — unconditionally. -/
def readerClose (r : ReaderCloseState) : ReaderCloseState :=
  ⟨r.unmapCalls + 1⟩

/-- C9 counterexample: on the reader facade, a second Close after a first
completed Close is not a no-op: it invokes mmap.Unmap on the region again
(two unmap calls after two closes, where the claim requires one). -/
theorem readerClose_double_close_unmaps_again :
    (readerClose (readerClose ⟨0⟩)).unmapCalls = 2 ∧
    readerClose (readerClose ⟨0⟩) ≠ readerClose ⟨0⟩ := by
  refine ⟨rfl, ?_⟩
  intro h
  have := congrArg ReaderCloseState.unmapCalls h
  simp [readerClose] at this

/-- C9 (amended): Writer.Close is single-shot — a second call after a first
completed call is a no-op guarded by the CAS on the closed flag, and does
not unmap the region again — but Reader.Close has no closed flag and
invokes mmap.Unmap on every call. -/
theorem writer_close_single_shot_reader_close_not (w : WriterCloseState)
    (r : ReaderCloseState) :
    writerClose (writerClose w) = writerClose w ∧
    (writerClose w).unmapCalls ≤ w.unmapCalls + 1 ∧
    (readerClose r).unmapCalls = r.unmapCalls + 1 := by
  refine ⟨?_, ?_, rfl⟩
  · unfold writerClose
    by_cases h : w.closed = 0
    · rw [if_pos h]
      simp
    · rw [if_neg h, if_neg h]
  · unfold writerClose
    by_cases h : w.closed = 0
    · rw [if_pos h]
    · rw [if_neg h]; omega

/-! ## Store kinds of the statics publication (claim C8)

internal/offheap/buffer.go implements GetInt32Volatile with
atomic.LoadInt32 and PutInt64Volatile with atomic.StoreInt64, but
PutInt32Volatile with a plain assignment
( *(*int32)(unsafe.Pointer(b.addr + offset)) = v ), so every int32 store
of the encoder — including the statics count, every record's value length
and the version field — compiles to a plain store with no release
ordering. -/

inductive StoreKind where
  | plain
  | atomicStore
deriving DecidableEq, Repr

/-- buffer.go PutInt32(offset, v): plain assignment. -/
def putInt32StoreKind : StoreKind := .plain

/-- buffer.go PutInt32Volatile(offset, v): despite its name, a plain
assignment (no atomic.StoreInt32), hence no release store. -/
def putInt32VolatileStoreKind : StoreKind := .plain

/-- buffer.go PutInt64Volatile(offset, v): atomic.StoreInt64. -/
def putInt64VolatileStoreKind : StoreKind := .atomicStore

/-- buffer.go PutBytes / PutSomeBytes: plain copy. -/
def putBytesStoreKind : StoreKind := .plain

inductive StaticsWrite where
  | staticsCount
  | recordLabelBytes (i : Nat)
  | recordValueBytes (i : Nat)
  | recordLabelLength (i : Nat)
  | recordValueLength (i : Nat)
deriving DecidableEq, Repr

/-- Go, encoder.go SetStatics, for a nonempty statics map of n records: the
sequence of stores it performs, in program order, each tagged with the
store kind of the Buffer method it calls.  The statics count is stored
first — PutInt32Volatile(0, int32(len(labels))) precedes the record loop —
and each record then stores label bytes, value bytes, label length
(PutInt32) and value length (PutInt32Volatile). -/
def setStaticsStoreTrace (n : Nat) : List (StaticsWrite × StoreKind) :=
  (StaticsWrite.staticsCount, putInt32VolatileStoreKind) ::
    ((List.range n).map (fun i =>
      [(StaticsWrite.recordLabelBytes i, putBytesStoreKind),
       (StaticsWrite.recordValueBytes i, putBytesStoreKind),
       (StaticsWrite.recordLabelLength i, putInt32StoreKind),
       (StaticsWrite.recordValueLength i, putInt32VolatileStoreKind)])).flatten

/-- C8 refutation: for a one-record statics map, the SetStatics store trace
begins with the statics count — written before the records, not after —
and every store in the trace, the record value lengths and the statics
count included, is a plain store: PutInt32Volatile is implemented without
atomic.StoreInt32, so no release store is performed at all. -/
theorem setStatics_stores_are_plain_and_count_first :
    setStaticsStoreTrace 1 =
      [(StaticsWrite.staticsCount, StoreKind.plain),
       (StaticsWrite.recordLabelBytes 0, StoreKind.plain),
       (StaticsWrite.recordValueBytes 0, StoreKind.plain),
       (StaticsWrite.recordLabelLength 0, StoreKind.plain),
       (StaticsWrite.recordValueLength 0, StoreKind.plain)] ∧
    (∀ e ∈ setStaticsStoreTrace 1, e.2 = StoreKind.plain) ∧
    (setStaticsStoreTrace 1).head? = some (StaticsWrite.staticsCount, StoreKind.plain) := by
  refine ⟨by decide, by decide, by decide⟩

/-! ## Statics section: byte-level model

The statics section is modelled as a byte-addressed memory.  Buffer int32
accessors store and load four bytes at consecutive addresses (the writer
and reader use the same native-endian accessors at the same offsets, so a
fixed byte order — little-endian here, as on the commodity hardware the
format targets — is sound).  PutInt32Volatile has the same memory effect
as PutInt32 (it is a plain store, see the store-kind section above), so
both are one putI32M. -/

def Mem : Type := Nat → Nat

def putByteM (m : Mem) (off v : Nat) : Mem :=
  fun a => if a = off then v % 2 ^ 8 else m a

/-- Buffer.PutBytes / PutSomeBytes: copy bytes to consecutive addresses. -/
def putBytesM : Mem → Nat → List Nat → Mem
  | m, _, [] => m
  | m, off, b :: bs => putBytesM (putByteM m off b) (off + 1) bs

/-- Buffer.PutInt32 at the byte level (four bytes, low byte first). -/
def putI32M (m : Mem) (off v : Nat) : Mem :=
  putByteM (putByteM (putByteM (putByteM m off v)
    (off + 1) (v / 2 ^ 8)) (off + 2) (v / 2 ^ 16)) (off + 3) (v / 2 ^ 24)

/-- Buffer.GetInt32 at the byte level. -/
def getI32M (m : Mem) (off : Nat) : Nat :=
  m off + 2 ^ 8 * m (off + 1) + 2 ^ 16 * m (off + 2) + 2 ^ 24 * m (off + 3)

/-- Buffer.GetBytes: a fresh byte sequence of the addressed range. -/
def getBytesM (m : Mem) (off n : Nat) : List Nat :=
  (List.range n).map (fun i => m (off + i))

theorem putBytesM_agree : ∀ (bs : List Nat) (m : Mem) (off a : Nat),
    a < off ∨ off + bs.length ≤ a → putBytesM m off bs a = m a := by
  intro bs
  induction bs with
  | nil => intro m off a _; rfl
  | cons b bs ih =>
    intro m off a h
    simp only [List.length_cons] at h
    simp only [putBytesM]
    rw [ih _ _ _ (by omega)]
    simp only [putByteM]
    rw [if_neg (by omega)]

theorem putI32M_agree (m : Mem) (off v a : Nat) (h : a < off ∨ off + 4 ≤ a) :
    putI32M m off v a = m a := by
  simp only [putI32M, putByteM]
  rw [if_neg (by omega), if_neg (by omega), if_neg (by omega), if_neg (by omega)]

theorem getI32M_putI32M (m : Mem) (off v : Nat) :
    getI32M (putI32M m off v) off = v % 2 ^ 32 := by
  have e0 : putI32M m off v off = v % 2 ^ 8 := by
    simp only [putI32M, putByteM]
    rw [if_neg (by omega), if_neg (by omega), if_neg (by omega)]
    simp
  have e1 : putI32M m off v (off + 1) = v / 2 ^ 8 % 2 ^ 8 := by
    simp only [putI32M, putByteM]
    rw [if_neg (by omega), if_neg (by omega)]
    simp
  have e2 : putI32M m off v (off + 2) = v / 2 ^ 16 % 2 ^ 8 := by
    simp only [putI32M, putByteM]
    rw [if_neg (by omega)]
    simp
  have e3 : putI32M m off v (off + 3) = v / 2 ^ 24 % 2 ^ 8 := by
    simp only [putI32M, putByteM]
    simp
  unfold getI32M
  rw [e0, e1, e2, e3]
  omega

theorem getI32M_congr (m m' : Mem) (off : Nat)
    (h : ∀ k, k < 4 → m' (off + k) = m (off + k)) : getI32M m' off = getI32M m off := by
  unfold getI32M
  have h0 := h 0 (by omega)
  rw [show off + 0 = off from rfl] at h0
  rw [h0, h 1 (by omega), h 2 (by omega), h 3 (by omega)]

theorem getBytesM_congr (m m' : Mem) (off n : Nat)
    (h : ∀ i, i < n → m' (off + i) = m (off + i)) : getBytesM m' off n = getBytesM m off n := by
  unfold getBytesM
  apply List.map_congr_left
  intro i hi
  exact h i (List.mem_range.mp hi)

theorem getBytesM_succ (m : Mem) (off n : Nat) :
    getBytesM m off (n + 1) = m off :: getBytesM m (off + 1) n := by
  unfold getBytesM
  rw [List.range_succ_eq_map]
  simp only [List.map_cons, List.map_map, Nat.add_zero]
  congr 1
  apply List.map_congr_left
  intro i _
  simp only [Function.comp]
  congr 1
  omega

theorem getBytesM_putBytesM : ∀ (bs : List Nat) (m : Mem) (off : Nat),
    (∀ b ∈ bs, b < 2 ^ 8) → getBytesM (putBytesM m off bs) off bs.length = bs := by
  intro bs
  induction bs with
  | nil => intro m off _; rfl
  | cons b bs ih =>
    intro m off h
    simp only [List.length_cons]
    rw [getBytesM_succ]
    congr 1
    · simp only [putBytesM]
      rw [putBytesM_agree bs _ _ off (by omega)]
      simp only [putByteM, if_pos rfl]
      exact Nat.mod_eq_of_lt (h b (by simp))
    · simp only [putBytesM]
      exact ih _ _ (fun x hx => h x (by simp [hx]))

/-! ### Statics layout constants and records -/

def staticsNumberOfStaticsOffset : Nat := 0

def staticsRecordsOffset : Nat := staticsNumberOfStaticsOffset + sizeOfInt32

def staticsLabelLengthOffset : Nat := 0

def staticsValueLengthOffset : Nat := staticsLabelLengthOffset + sizeOfInt32

def staticsLabelOffset : Nat := staticsValueLengthOffset + sizeOfInt32

/-- Go: staticsRecordLength(labelLength, valueLength) =
Align(staticsLabelOffset + labelLength + valueLength, sizeOfInt32). -/
def staticsRecordLength (labelLength valueLength : Nat) : Nat :=
  Align (staticsLabelOffset + labelLength + valueLength) sizeOfInt32

theorem le_Align (v alignment : Nat) (h : 0 < alignment) : v ≤ Align v alignment := by
  unfold Align
  have := Nat.mod_lt (v + alignment - 1) h
  omega

theorem staticsRecordLength_ge (labelLength valueLength : Nat) :
    staticsLabelOffset + labelLength + valueLength ≤
      staticsRecordLength labelLength valueLength :=
  le_Align _ _ (by decide)

/-- A statics table: labels paired with values, both raw byte strings.  A
Go map[string]string is the association list of its entries, with labels
pairwise distinct; the entry order carries no information because the
encoder sorts by label. -/
abbrev StaticRec : Type := List Nat × List Nat

/-- Go sort.Strings comparison: lexicographic byte order of labels. -/
def lexLe : List Nat → List Nat → Bool
  | [], _ => true
  | _ :: _, [] => false
  | a :: as, b :: bs => if a < b then true else if b < a then false else lexLe as bs

def recordLe (x y : StaticRec) : Prop := lexLe x.1 y.1 = true

instance : DecidableRel recordLe := fun x y => by unfold recordLe; infer_instance

/-- Go, encoder.go SetStatics / StaticsLength: collect the labels, sort
them with sort.Strings, and process entries in that label order.  Sorting
the entries by label is the same as sorting the label list and indexing
the map, because labels are the map's keys. -/
def sortStatics (statics : List StaticRec) : List StaticRec :=
  List.insertionSort recordLe statics

/-- Go, encoder.go StaticsLength: staticsRecordsOffset for a nil or empty
map (note: without the final alignment); otherwise the records' lengths in
sorted label order summed onto staticsRecordsOffset, aligned up to two
cache lines. -/
def StaticsLength (statics : List StaticRec) : Nat :=
  if statics = [] then staticsRecordsOffset
  else
    Align (staticsRecordsOffset +
        ((sortStatics statics).map
          (fun r => staticsRecordLength r.1.length r.2.length)).sum)
      (sizeOfCacheLine * 2)

/-- Go, encoder.go SetStatics record body: PutBytes of the label at
offset+staticsLabelOffset, PutBytes of the value right after the label,
PutInt32 of the label length, PutInt32Volatile of the value length (the
same plain memory effect, see the store-kind section). -/
def writeStaticRecord (m : Mem) (off : Nat) (label value : List Nat) : Mem :=
  let m1 := putBytesM m (off + staticsLabelOffset) label
  let m2 := putBytesM m1 (off + staticsLabelOffset + label.length) value
  let m3 := putI32M m2 (off + staticsLabelLengthOffset) label.length
  putI32M m3 (off + staticsValueLengthOffset) value.length

inductive StaticsErr where
  /-- Go: "statics buffer is too small". -/
  | bufferTooSmall
  /-- Go: "properties don't feet to the statics's buffer size". -/
  | recordsDoNotFit
deriving DecidableEq, Repr

/-- Go, encoder.go SetStatics record loop: check
offset + recordLength > capacity before each record, then write the record
and advance by its length. -/
def setStaticsLoop (capacity : Nat) :
    List StaticRec → Mem → Nat → Except StaticsErr Mem
  | [], m, _ => .ok m
  | (label, value) :: rest, m, off =>
    let recordLength := staticsRecordLength label.length value.length
    if capacity < off + recordLength then .error .recordsDoNotFit
    else setStaticsLoop capacity rest (writeStaticRecord m off label value)
      (off + recordLength)

/-- Go, encoder.go SetStatics: for a nil or empty map store count 0 and
return; otherwise check that the count field fits, store the count (before
the record loop), and write the sorted records starting at
staticsRecordsOffset. -/
def setStatics (capacity : Nat) (statics : List StaticRec) (m : Mem) :
    Except StaticsErr Mem :=
  if statics = [] then .ok (putI32M m staticsNumberOfStaticsOffset 0)
  else if capacity < staticsNumberOfStaticsOffset + staticsRecordsOffset then
    .error .bufferTooSmall
  else
    setStaticsLoop capacity (sortStatics statics)
      (putI32M m staticsNumberOfStaticsOffset (sortStatics statics).length)
      staticsRecordsOffset

/-- Go, decoder.go ForEachStatic record walk without a consumer: read label
length, value length, label bytes and value bytes, then advance by the
record length computed from the lengths just read. -/
def readStaticsRecords (m : Mem) : Nat → Nat → List StaticRec
  | _, 0 => []
  | off, n + 1 =>
    let labelLength := getI32M m (off + staticsLabelLengthOffset)
    let valueLength := getI32M m (off + staticsValueLengthOffset)
    let label := getBytesM m (off + staticsLabelOffset) labelLength
    let value := getBytesM m (off + staticsLabelOffset + labelLength) valueLength
    (label, value) ::
      readStaticsRecords m (off + staticsRecordLength labelLength valueLength) n

/-- Go, decoder.go ForEachStatic: read the statics count, then walk that
many records invoking the consumer, returning early when it yields false.
The result is the list of consumer invocations in order. -/
def forEachStaticLoop (m : Mem) (consumer : List Nat → List Nat → Bool) :
    Nat → Nat → List StaticRec
  | _, 0 => []
  | off, n + 1 =>
    let labelLength := getI32M m (off + staticsLabelLengthOffset)
    let valueLength := getI32M m (off + staticsValueLengthOffset)
    let label := getBytesM m (off + staticsLabelOffset) labelLength
    let value := getBytesM m (off + staticsLabelOffset + labelLength) valueLength
    if consumer label value then
      (label, value) ::
        forEachStaticLoop m consumer
          (off + staticsRecordLength labelLength valueLength) n
    else [(label, value)]

def forEachStatic (m : Mem) (consumer : List Nat → List Nat → Bool) : List StaticRec :=
  forEachStaticLoop m consumer staticsRecordsOffset
    (getI32M m staticsNumberOfStaticsOffset)

/-- Go, decoder.go GetStaticValue: the same record walk, comparing each
record's label bytes with the query and returning the record's value bytes
on the first match; "label isn't found" otherwise. -/
def getStaticValueLoop (m : Mem) (labelQuery : List Nat) :
    Nat → Nat → Except DecoderErr (List Nat)
  | _, 0 => .error .notFound
  | off, n + 1 =>
    let labelLength := getI32M m (off + staticsLabelLengthOffset)
    let valueLength := getI32M m (off + staticsValueLengthOffset)
    let label := getBytesM m (off + staticsLabelOffset) labelLength
    if labelQuery = label then
      .ok (getBytesM m (off + staticsLabelOffset + labelLength) valueLength)
    else
      getStaticValueLoop m labelQuery
        (off + staticsRecordLength labelLength valueLength) n

def getStaticValue (m : Mem) (labelQuery : List Nat) : Except DecoderErr (List Nat) :=
  getStaticValueLoop m labelQuery staticsRecordsOffset
    (getI32M m staticsNumberOfStaticsOffset)

/-- Well-formed statics tables: distinct labels (map keys), byte-string
entries, and int32-representable sizes. -/
def staticsWF (statics : List StaticRec) : Prop :=
  (statics.map Prod.fst).Nodup ∧
  statics.length < 2 ^ 31 ∧
  ∀ r ∈ statics, (∀ b ∈ r.1, b < 2 ^ 8) ∧ (∀ b ∈ r.2, b < 2 ^ 8) ∧
    r.1.length < 2 ^ 31 ∧ r.2.length < 2 ^ 31

/-! ### Round trip of the statics table -/

theorem staticsLabelLengthOffset_eq : staticsLabelLengthOffset = 0 := rfl

theorem staticsValueLengthOffset_eq : staticsValueLengthOffset = 4 := rfl

theorem staticsLabelOffset_eq : staticsLabelOffset = 8 := rfl

theorem staticsRecordsOffset_eq : staticsRecordsOffset = 4 := rfl

theorem writeStaticRecord_agree (m : Mem) (off : Nat) (l v : List Nat) (a : Nat)
    (h : a < off ∨ off + staticsRecordLength l.length v.length ≤ a) :
    writeStaticRecord m off l v a = m a := by
  have hge := staticsRecordLength_ge l.length v.length
  rw [staticsLabelOffset_eq] at hge
  unfold writeStaticRecord
  simp only [staticsLabelLengthOffset_eq, staticsValueLengthOffset_eq, staticsLabelOffset_eq,
    Nat.add_zero]
  rw [putI32M_agree _ _ _ _ (by omega), putI32M_agree _ _ _ _ (by omega),
    putBytesM_agree _ _ _ _ (by omega), putBytesM_agree _ _ _ _ (by omega)]

theorem readStaticRecord_after_write (m : Mem) (off : Nat) (l v : List Nat)
    (hlb : ∀ b ∈ l, b < 2 ^ 8) (hvb : ∀ b ∈ v, b < 2 ^ 8)
    (hll : l.length < 2 ^ 32) (hvl : v.length < 2 ^ 32) :
    getI32M (writeStaticRecord m off l v) (off + staticsLabelLengthOffset) = l.length ∧
    getI32M (writeStaticRecord m off l v) (off + staticsValueLengthOffset) = v.length ∧
    getBytesM (writeStaticRecord m off l v) (off + staticsLabelOffset) l.length = l ∧
    getBytesM (writeStaticRecord m off l v) (off + staticsLabelOffset + l.length)
      v.length = v := by
  unfold writeStaticRecord
  simp only [staticsLabelLengthOffset_eq, staticsValueLengthOffset_eq, staticsLabelOffset_eq,
    Nat.add_zero]
  set m1 := putBytesM m (off + 8) l with hm1
  set m2 := putBytesM m1 (off + 8 + l.length) v with hm2
  set m3 := putI32M m2 off l.length with hm3
  refine ⟨?_, ?_, ?_, ?_⟩
  · have c1 : getI32M (putI32M m3 (off + 4) v.length) off = getI32M m3 off :=
      getI32M_congr m3 _ off (fun k hk => putI32M_agree _ _ _ _ (by omega))
    rw [c1, hm3, getI32M_putI32M]
    exact Nat.mod_eq_of_lt hll
  · rw [getI32M_putI32M]
    exact Nat.mod_eq_of_lt hvl
  · have c1 : getBytesM (putI32M m3 (off + 4) v.length) (off + 8) l.length =
        getBytesM m3 (off + 8) l.length :=
      getBytesM_congr m3 _ (off + 8) l.length
        (fun i hi => putI32M_agree _ _ _ _ (by omega))
    have c2 : getBytesM m3 (off + 8) l.length = getBytesM m2 (off + 8) l.length := by
      rw [hm3]
      exact getBytesM_congr m2 _ (off + 8) l.length
        (fun i hi => putI32M_agree _ _ _ _ (by omega))
    have c3 : getBytesM m2 (off + 8) l.length = getBytesM m1 (off + 8) l.length := by
      rw [hm2]
      exact getBytesM_congr m1 _ (off + 8) l.length
        (fun i hi => putBytesM_agree _ _ _ _ (by omega))
    rw [c1, c2, c3, hm1]
    exact getBytesM_putBytesM l m (off + 8) hlb
  · have c1 : getBytesM (putI32M m3 (off + 4) v.length) (off + 8 + l.length) v.length =
        getBytesM m3 (off + 8 + l.length) v.length :=
      getBytesM_congr m3 _ (off + 8 + l.length) v.length
        (fun i hi => putI32M_agree _ _ _ _ (by omega))
    have c2 : getBytesM m3 (off + 8 + l.length) v.length =
        getBytesM m2 (off + 8 + l.length) v.length := by
      rw [hm3]
      exact getBytesM_congr m2 _ (off + 8 + l.length) v.length
        (fun i hi => putI32M_agree _ _ _ _ (by omega))
    rw [c1, c2, hm2]
    exact getBytesM_putBytesM v m1 (off + 8 + l.length) hvb

theorem setStaticsLoop_agree (capacity : Nat) :
    ∀ (recs : List StaticRec) (m : Mem) (off : Nat) (m' : Mem),
      setStaticsLoop capacity recs m off = .ok m' →
      ∀ a, a < off → m' a = m a := by
  intro recs
  induction recs with
  | nil =>
    intro m off m' h a _
    simp only [setStaticsLoop, Except.ok.injEq] at h
    rw [← h]
  | cons r rest ih =>
    intro m off m' h a ha
    obtain ⟨l, v⟩ := r
    simp only [setStaticsLoop] at h
    by_cases hcap : capacity < off + staticsRecordLength l.length v.length
    · rw [if_pos hcap] at h; exact Except.noConfusion h
    · rw [if_neg hcap] at h
      rw [ih _ _ _ h a (by omega), writeStaticRecord_agree _ _ _ _ _ (Or.inl ha)]

/-- The summed record lengths of a statics table, as StaticsLength and the
SetStatics loop accumulate them. -/
def sumRecordLengths (recs : List StaticRec) : Nat :=
  (recs.map (fun r => staticsRecordLength r.1.length r.2.length)).sum

theorem setStaticsLoop_ok_of_fits (capacity : Nat) :
    ∀ (recs : List StaticRec) (m : Mem) (off : Nat),
      off + sumRecordLengths recs ≤ capacity →
      ∃ m', setStaticsLoop capacity recs m off = .ok m' := by
  intro recs
  induction recs with
  | nil => intro m off _; exact ⟨m, rfl⟩
  | cons r rest ih =>
    intro m off hfit
    obtain ⟨l, v⟩ := r
    simp only [sumRecordLengths, List.map_cons, List.sum_cons] at hfit
    simp only [setStaticsLoop]
    rw [if_neg (by simp only [sumRecordLengths] at *; omega)]
    exact ih _ _ (by simp only [sumRecordLengths] at *; omega)

theorem setStaticsLoop_roundtrip (capacity : Nat) :
    ∀ (recs : List StaticRec) (m : Mem) (off : Nat) (m' : Mem),
      (∀ r ∈ recs, (∀ b ∈ r.1, b < 2 ^ 8) ∧ (∀ b ∈ r.2, b < 2 ^ 8) ∧
        r.1.length < 2 ^ 32 ∧ r.2.length < 2 ^ 32) →
      setStaticsLoop capacity recs m off = .ok m' →
      readStaticsRecords m' off recs.length = recs := by
  intro recs
  induction recs with
  | nil => intro m off m' _ _; rfl
  | cons r rest ih =>
    intro m off m' hwf h
    obtain ⟨l, v⟩ := r
    simp only [setStaticsLoop] at h
    by_cases hcap : capacity < off + staticsRecordLength l.length v.length
    · rw [if_pos hcap] at h; exact Except.noConfusion h
    · rw [if_neg hcap] at h
      obtain ⟨hlb, hvb, hll, hvl⟩ := hwf (l, v) (by simp)
      have hge := staticsRecordLength_ge l.length v.length
      rw [staticsLabelOffset_eq] at hge
      have hagree : ∀ a, a < off + staticsRecordLength l.length v.length →
          m' a = writeStaticRecord m off l v a :=
        fun a ha => setStaticsLoop_agree capacity rest _ _ _ h a ha
      obtain ⟨e_ll, e_vl, e_l, e_v⟩ := readStaticRecord_after_write m off l v hlb hvb hll hvl
      rw [staticsLabelLengthOffset_eq, Nat.add_zero] at e_ll
      rw [staticsValueLengthOffset_eq] at e_vl
      rw [staticsLabelOffset_eq] at e_l e_v
      have f_ll : getI32M m' off = l.length := by
        rw [getI32M_congr (writeStaticRecord m off l v) m' off
          (fun k hk => hagree _ (by omega))]
        exact e_ll
      have f_vl : getI32M m' (off + 4) = v.length := by
        rw [getI32M_congr (writeStaticRecord m off l v) m' (off + 4)
          (fun k hk => hagree _ (by omega))]
        exact e_vl
      have f_l : getBytesM m' (off + 8) l.length = l := by
        rw [getBytesM_congr (writeStaticRecord m off l v) m' (off + 8) l.length
          (fun i hi => hagree _ (by omega))]
        exact e_l
      have f_v : getBytesM m' (off + 8 + l.length) v.length = v := by
        rw [getBytesM_congr (writeStaticRecord m off l v) m' (off + 8 + l.length) v.length
          (fun i hi => hagree _ (by omega))]
        exact e_v
      simp only [readStaticsRecords, List.length_cons, staticsLabelLengthOffset_eq,
        staticsValueLengthOffset_eq, staticsLabelOffset_eq, Nat.add_zero]
      rw [f_ll, f_vl, f_l, f_v]
      congr 1
      exact ih _ _ _ (fun x hx => hwf x (by simp [hx])) h

/-- Go sorting helper equality used by both the capacity and the round-trip
reasoning: first match in the record walk. -/
def staticFind (q : List Nat) : List StaticRec → Except DecoderErr (List Nat)
  | [] => .error .notFound
  | (l, v) :: rest => if q = l then .ok v else staticFind q rest

theorem getStaticValueLoop_eq_staticFind (m : Mem) (q : List Nat) :
    ∀ (n : Nat) (off : Nat),
      getStaticValueLoop m q off n = staticFind q (readStaticsRecords m off n) := by
  intro n
  induction n with
  | zero => intro off; rfl
  | succ k ih =>
    intro off
    simp only [getStaticValueLoop, readStaticsRecords, staticFind]
    by_cases hq : q = getBytesM m (off + staticsLabelOffset)
        (getI32M m (off + staticsLabelLengthOffset))
    · rw [if_pos hq, if_pos hq]
    · rw [if_neg hq, if_neg hq]
      exact ih _

theorem forEachStaticLoop_all_true (m : Mem) (consumer : List Nat → List Nat → Bool)
    (htrue : ∀ l v, consumer l v = true) :
    ∀ (n : Nat) (off : Nat),
      forEachStaticLoop m consumer off n = readStaticsRecords m off n := by
  intro n
  induction n with
  | zero => intro off; rfl
  | succ k ih =>
    intro off
    simp only [forEachStaticLoop, readStaticsRecords, htrue, if_true]
    congr 1
    exact ih _

theorem staticFind_of_mem (q v : List Nat) :
    ∀ recs : List StaticRec, (q, v) ∈ recs → (recs.map Prod.fst).Nodup →
      staticFind q recs = .ok v := by
  intro recs
  induction recs with
  | nil => intro h _; simp at h
  | cons r rest ih =>
    intro hmem hnd
    obtain ⟨l, w⟩ := r
    simp only [List.map_cons, List.nodup_cons] at hnd
    simp only [staticFind]
    by_cases hq : q = l
    · rw [if_pos hq]
      rcases List.mem_cons.mp hmem with heq | hin
      · rw [(Prod.mk.injEq .. ▸ heq : q = l ∧ v = w).2]
      · exact absurd (List.mem_map.mpr ⟨(q, v), hin, rfl⟩) (hq ▸ hnd.1)
    · rw [if_neg hq]
      apply ih ?_ hnd.2
      rcases List.mem_cons.mp hmem with heq | hin
      · exact absurd (Prod.mk.injEq .. ▸ heq : q = l ∧ v = w).1 hq
      · exact hin

/-! ### Claims C10 and C5 -/

/-- C10: SetStatics on a statics buffer whose capacity is exactly
StaticsLength of the map — the capacity the writer facade allocates —
never returns an error: both capacity-exceeded branches are unreachable. -/
theorem setStatics_fits_writer_sized_buffer (statics : List StaticRec) (m : Mem) :
    ∃ m', setStatics (StaticsLength statics) statics m = .ok m' := by
  by_cases hempty : statics = []
  · subst hempty
    exact ⟨putI32M m staticsNumberOfStaticsOffset 0, rfl⟩
  · have hS : StaticsLength statics =
        Align (staticsRecordsOffset + sumRecordLengths (sortStatics statics))
          (sizeOfCacheLine * 2) := by
      unfold StaticsLength sumRecordLengths
      rw [if_neg hempty]
    have hle : staticsRecordsOffset + sumRecordLengths (sortStatics statics) ≤
        StaticsLength statics := by
      rw [hS]
      exact le_Align _ _ (by decide)
    rw [staticsRecordsOffset_eq] at hle
    unfold setStatics
    rw [if_neg hempty,
      if_neg (by rw [staticsRecordsOffset_eq, show staticsNumberOfStaticsOffset = 0 from rfl]; omega)]
    exact setStaticsLoop_ok_of_fits (StaticsLength statics) (sortStatics statics) _
      staticsRecordsOffset (by rw [staticsRecordsOffset_eq]; omega)

/-- C5: writing a statics map into a writer-sized buffer and then reading
it back: SetStatics succeeds, ForEachStatic (with a sink that always
continues) invokes the sink exactly once per entry, in ascending byte order
of label — the sorted table —, and GetStaticValue returns the map's value
for every label of the map. -/
theorem statics_write_read_roundtrip (statics : List StaticRec) (m0 : Mem)
    (hwf : staticsWF statics)
    (consumer : List Nat → List Nat → Bool) (htrue : ∀ l v, consumer l v = true) :
    ∃ m', setStatics (StaticsLength statics) statics m0 = .ok m' ∧
      forEachStatic m' consumer = sortStatics statics ∧
      ∀ r ∈ statics, getStaticValue m' r.1 = .ok r.2 := by
  obtain ⟨hnd, hlen, hrecs⟩ := hwf
  by_cases hempty : statics = []
  · subst hempty
    refine ⟨putI32M m0 staticsNumberOfStaticsOffset 0, rfl, ?_, by simp⟩
    unfold forEachStatic
    rw [getI32M_putI32M]
    rfl
  · have hperm : List.Perm (sortStatics statics) statics :=
      List.perm_insertionSort recordLe statics
    have hS : StaticsLength statics =
        Align (staticsRecordsOffset + sumRecordLengths (sortStatics statics))
          (sizeOfCacheLine * 2) := by
      unfold StaticsLength sumRecordLengths
      rw [if_neg hempty]
    have hle : staticsRecordsOffset + sumRecordLengths (sortStatics statics) ≤
        StaticsLength statics := by
      rw [hS]
      exact le_Align _ _ (by decide)
    rw [staticsRecordsOffset_eq] at hle
    obtain ⟨m', hloop⟩ := setStaticsLoop_ok_of_fits (StaticsLength statics)
      (sortStatics statics)
      (putI32M m0 staticsNumberOfStaticsOffset (sortStatics statics).length)
      staticsRecordsOffset (by rw [staticsRecordsOffset_eq]; omega)
    have hset : setStatics (StaticsLength statics) statics m0 = .ok m' := by
      unfold setStatics
      rw [if_neg hempty,
        if_neg (by
          rw [staticsRecordsOffset_eq, show staticsNumberOfStaticsOffset = 0 from rfl]
          omega)]
      exact hloop
    have hwfs : ∀ r ∈ sortStatics statics, (∀ b ∈ r.1, b < 2 ^ 8) ∧
        (∀ b ∈ r.2, b < 2 ^ 8) ∧ r.1.length < 2 ^ 32 ∧ r.2.length < 2 ^ 32 := by
      intro r hr
      obtain ⟨h1, h2, h3, h4⟩ := hrecs r (hperm.mem_iff.mp hr)
      exact ⟨h1, h2, by omega, by omega⟩
    have hrecords : readStaticsRecords m' staticsRecordsOffset
        (sortStatics statics).length = sortStatics statics :=
      setStaticsLoop_roundtrip (StaticsLength statics) (sortStatics statics) _
        staticsRecordsOffset m' hwfs hloop
    have hcount : getI32M m' staticsNumberOfStaticsOffset =
        (sortStatics statics).length := by
      have hagree := setStaticsLoop_agree (StaticsLength statics) (sortStatics statics)
        _ staticsRecordsOffset m' hloop
      rw [show staticsNumberOfStaticsOffset = 0 from rfl] at *
      rw [getI32M_congr (putI32M m0 0 (sortStatics statics).length) m' 0
        (fun k hk => hagree _ (by rw [staticsRecordsOffset_eq]; omega)),
        getI32M_putI32M]
      exact Nat.mod_eq_of_lt (by rw [hperm.length_eq]; omega)
    refine ⟨m', hset, ?_, ?_⟩
    · unfold forEachStatic
      rw [hcount, forEachStaticLoop_all_true m' consumer htrue, hrecords]
    · intro r hr
      unfold getStaticValue
      rw [hcount, getStaticValueLoop_eq_staticFind, hrecords]
      apply staticFind_of_mem
      · exact hperm.mem_iff.mpr (by rwa [Prod.mk.eta])
      · exact ((hperm.map Prod.fst).nodup_iff).mpr hnd

/-- A two-entry statics map given in unsorted label order
(labels "b" and "a" as byte strings). -/
def exStatics : List StaticRec := [([98], [99]), ([97], [100])]

/-- The all-true sink used to enumerate the statics table completely. -/
def exConsumer : List Nat → List Nat → Bool := fun _ _ => true

theorem statics_write_read_roundtrip_witness :
    staticsWF exStatics ∧ (∀ l v, exConsumer l v = true) ∧
    (∃ m', setStatics (StaticsLength exStatics) exStatics (fun _ => 0) = .ok m' ∧
      forEachStatic m' exConsumer = sortStatics exStatics ∧
      ∀ r ∈ exStatics, getStaticValue m' r.1 = .ok r.2) :=
  ⟨⟨by decide, by decide, by decide⟩, fun _ _ => rfl,
   statics_write_read_roundtrip exStatics (fun _ => 0)
     ⟨by decide, by decide, by decide⟩ exConsumer (fun _ _ => rfl)⟩
